import Mathlib

/-
Verification of the weather dashboard core logic: the forecast aggregation
pipeline (utils/helpers, embedded below as processForecastData and its helper
functions) and the saved city collection manager (composables/useCities
together with the storage layer).  Numbers that are IEEE doubles in the source
are embedded as rationals, so every arithmetic statement is exact; timestamps
are naturals (seconds since epoch) and the local calendar day used by
toDateString is modelled as floor division of the shifted timestamp by 86400
with an arbitrary fixed zone offset.
-/

namespace WeatherDashboard

/-- convertTemperature from the helpers module: identity on equal units,
the two recognized celsius/fahrenheit formulas, identity otherwise. -/
def convertTemperature (temp : ℚ) (fromUnit toUnit : String) : ℚ :=
  if fromUnit = toUnit then temp
  else if fromUnit = "celsius" ∧ toUnit = "fahrenheit" then temp * 9 / 5 + 32
  else if fromUnit = "fahrenheit" ∧ toUnit = "celsius" then (temp - 32) * 5 / 9
  else temp

/-- One raw forecast sample, as consumed by processForecastData: a timestamp
in seconds, the fields read from item.main, item.wind and item.weather[0]. -/
structure WeatherSample where
  dt : ℕ
  temp : ℚ
  humidity : ℚ
  windSpeed : ℚ
  condition : String
  icon : String
  deriving DecidableEq

/-- The per-day accumulator built by the grouping loop of
processForecastData: the date of the first sample seen for the day and the
pushed-in-order field lists. -/
structure DayGroup where
  date : ℕ
  temps : List ℚ
  conditions : List String
  humidity : List ℚ
  wind : List ℚ
  icons : List String
  deriving DecidableEq

/-- The local calendar day of a timestamp, modelling the
toDateString value of the sample date with a fixed zone offset tz in seconds. -/
def dateKey (tz : ℤ) (dt : ℕ) : ℤ := Int.fdiv ((dt : ℤ) + tz) 86400

/-- The group created when a new calendar date is first encountered. -/
def initGroup (it : WeatherSample) : DayGroup :=
  ⟨it.dt, [it.temp], [it.condition], [it.humidity], [it.windSpeed], [it.icon]⟩

/-- Pushing one more sample onto an existing group, in scan order. -/
def pushSample (g : DayGroup) (it : WeatherSample) : DayGroup :=
  ⟨g.date, g.temps ++ [it.temp], g.conditions ++ [it.condition],
   g.humidity ++ [it.humidity], g.wind ++ [it.windSpeed], g.icons ++ [it.icon]⟩

/-- Whether the dailyData object already has an entry for the key. -/
def hasKey (acc : List (ℤ × DayGroup)) (k : ℤ) : Bool :=
  acc.any (fun p => p.1 = k)

/-- One step of the forEach loop of processForecastData.  The string-keyed
dailyData object preserves insertion order (its keys are date strings, never
integer-like), so it is embedded as an association list that appends new keys
at the end and updates existing ones in place. -/
def addToGroups (tz : ℤ) (acc : List (ℤ × DayGroup)) (it : WeatherSample) :
    List (ℤ × DayGroup) :=
  let k := dateKey tz it.dt
  if hasKey acc k then
    acc.map (fun p => if p.1 = k then (p.1, pushSample p.2 it) else p)
  else acc ++ [(k, initGroup it)]

/-- Math.min over a spread array.  On the empty list JS yields Infinity,
which has no rational counterpart; the 0 default is unreachable because every
group in the pipeline holds at least one sample. -/
def jsMin : List ℚ → ℚ
  | [] => 0
  | a :: r => r.foldl min a

/-- Math.max over a spread array; same unreachable empty-list remark. -/
def jsMax : List ℚ → ℚ
  | [] => 0
  | a :: r => r.foldl max a

/-- Math.round: round half toward positive infinity. -/
def jsRound (q : ℚ) : ℤ := ⌊q + 1 / 2⌋

/-- Accumulator of the getMostFrequent loop: the counts dictionary and the
running maximum with its item. -/
structure MFState where
  counts : String → ℕ
  maxCount : ℕ
  maxItem : Option String

/-- One iteration of the getMostFrequent forEach: bump the count of the item
and take over the maximum when the strict comparison fires. -/
def mfStep (st : MFState) (a : String) : MFState :=
  if st.counts a + 1 > st.maxCount then
    ⟨fun x => if x = a then st.counts a + 1 else st.counts x, st.counts a + 1, some a⟩
  else
    ⟨fun x => if x = a then st.counts a + 1 else st.counts x, st.maxCount, st.maxItem⟩

/-- getMostFrequent from the helpers module.  maxItem starts as arr[0],
which is undefined (none) on the empty array. -/
def getMostFrequent (arr : List String) : Option String :=
  (arr.foldl mfStep ⟨fun _ => 0, 0, arr.head?⟩).maxItem

/-- One emitted daily summary of processForecastData. -/
structure DailySummary where
  date : ℕ
  tempMin : ℚ
  tempMax : ℚ
  tempAvg : ℚ
  condition : Option String
  humidity : ℤ
  wind : ℚ
  icon : Option String
  deriving DecidableEq

/-- The per-group reduction applied by the final map of processForecastData. -/
def summarize (g : DayGroup) : DailySummary :=
  ⟨g.date, jsMin g.temps, jsMax g.temps, g.temps.sum / (g.temps.length : ℚ),
   getMostFrequent g.conditions,
   jsRound (g.humidity.sum / (g.humidity.length : ℚ)),
   (jsRound (g.wind.sum / (g.wind.length : ℚ) * 10) : ℚ) / 10,
   getMostFrequent g.icons⟩

/-- processForecastData from the helpers module: group the samples by local
calendar date in first-seen order, reduce each group, keep the first five. -/
def processForecastData (tz : ℤ) (forecastList : List WeatherSample) :
    List DailySummary :=
  ((forecastList.foldl (addToGroups tz) []).map (fun p => summarize p.2)).take 5

/-- First-seen order of the distinct values of a list: the key order in which
the grouping object acquires its entries. -/
def firstSeen (l : List ℤ) : List ℤ :=
  l.foldl (fun ks k => if k ∈ ks then ks else ks ++ [k]) []

/-- Claim C6: convertTemperature is the identity when source and target unit
coincide and for every unit pairing other than the two recognized ones, and
the celsius-fahrenheit round trip recovers the input exactly over ℚ. -/
theorem convertTemperature_spec :
    (∀ x : ℚ, ∀ u : String, convertTemperature x u u = x) ∧
    (∀ x : ℚ, ∀ u v : String, ¬(u = "celsius" ∧ v = "fahrenheit") →
      ¬(u = "fahrenheit" ∧ v = "celsius") → convertTemperature x u v = x) ∧
    (∀ x : ℚ,
      convertTemperature (convertTemperature x "celsius" "fahrenheit")
        "fahrenheit" "celsius" = x) := by
  refine ⟨?_, ?_, ?_⟩
  · intro x u
    simp [convertTemperature]
  · intro x u v h1 h2
    simp only [convertTemperature]
    by_cases huv : u = v
    · simp [huv]
    · simp [huv, h1, h2]
  · intro x
    simp only [convertTemperature, String.reduceEq, if_false, false_and,
      and_self, if_true, and_false]
    ring

/-- Witness for C6: an unrecognized unit pairing, here kelvin to celsius,
really is the identity on a concrete temperature. -/
theorem convertTemperature_spec_witness :
    convertTemperature 5 "kelvin" "celsius" = 5 :=
  convertTemperature_spec.2.1 5 "kelvin" "celsius" (by simp) (by simp)

lemma foldl_min_le (r : List ℚ) : ∀ (a : ℚ), ∀ x ∈ a :: r, r.foldl min a ≤ x := by
  induction r with
  | nil =>
    intro a x hx
    simp only [List.mem_singleton] at hx
    simp [hx]
  | cons b r ih =>
    intro a x hx
    simp only [List.foldl_cons]
    have hmin : ∀ y ∈ (min a b) :: r, r.foldl min (min a b) ≤ y := ih (min a b)
    have hh : r.foldl min (min a b) ≤ min a b := hmin _ (List.mem_cons_self _ _)
    rcases List.mem_cons.mp hx with rfl | hx
    · exact hh.trans (min_le_left _ _)
    rcases List.mem_cons.mp hx with rfl | hx
    · exact hh.trans (min_le_right _ _)
    · exact hmin x (List.mem_cons_of_mem _ hx)

lemma le_foldl_max (r : List ℚ) : ∀ (a : ℚ), ∀ x ∈ a :: r, x ≤ r.foldl max a := by
  induction r with
  | nil =>
    intro a x hx
    simp only [List.mem_singleton] at hx
    simp [hx]
  | cons b r ih =>
    intro a x hx
    simp only [List.foldl_cons]
    have hmax : ∀ y ∈ (max a b) :: r, y ≤ r.foldl max (max a b) := ih (max a b)
    have hh : max a b ≤ r.foldl max (max a b) := hmax _ (List.mem_cons_self _ _)
    rcases List.mem_cons.mp hx with rfl | hx
    · exact (le_max_left _ _).trans hh
    rcases List.mem_cons.mp hx with rfl | hx
    · exact (le_max_right _ _).trans hh
    · exact hmax x (List.mem_cons_of_mem _ hx)

lemma length_mul_le_sum (l : List ℚ) (m : ℚ) (h : ∀ x ∈ l, m ≤ x) :
    m * l.length ≤ l.sum := by
  induction l with
  | nil => simp
  | cons a t ih =>
    have ha := h a (List.mem_cons_self _ _)
    have ht := ih fun x hx => h x (List.mem_cons_of_mem _ hx)
    simp only [List.sum_cons, List.length_cons]
    push_cast
    nlinarith

lemma sum_le_length_mul (l : List ℚ) (m : ℚ) (h : ∀ x ∈ l, x ≤ m) :
    l.sum ≤ m * l.length := by
  induction l with
  | nil => simp
  | cons a t ih =>
    have ha := h a (List.mem_cons_self _ _)
    have ht := ih fun x hx => h x (List.mem_cons_of_mem _ hx)
    simp only [List.sum_cons, List.length_cons]
    push_cast
    nlinarith

/-- For a nonempty list of rationals, the arithmetic mean computed by the
summary step lies between the Math.min and Math.max of the list. -/
lemma jsMin_le_avg_le_jsMax (l : List ℚ) (h : l ≠ []) :
    jsMin l ≤ l.sum / (l.length : ℚ) ∧ l.sum / (l.length : ℚ) ≤ jsMax l := by
  rcases l with _ | ⟨a, r⟩
  · exact absurd rfl h
  have hlen : (0 : ℚ) < ((a :: r).length : ℚ) := by
    simp only [List.length_cons]
    push_cast
    positivity
  constructor
  · rw [le_div_iff₀ hlen]
    exact length_mul_le_sum _ _ (foldl_min_le r a)
  · rw [div_le_iff₀ hlen]
    exact sum_le_length_mul _ _ (le_foldl_max r a)

/-- Every group produced by the grouping loop carries at least one
temperature: a group is created from a sample and only ever grows. -/
lemma temps_ne_nil_foldl (tz : ℤ) (l : List WeatherSample) :
    ∀ acc, (∀ p ∈ acc, p.2.temps ≠ []) →
      ∀ p ∈ l.foldl (addToGroups tz) acc, p.2.temps ≠ [] := by
  induction l with
  | nil =>
    intro acc h
    simpa using h
  | cons it l ih =>
    intro acc h
    simp only [List.foldl_cons]
    apply ih
    intro p hp
    unfold addToGroups at hp
    by_cases hk : hasKey acc (dateKey tz it.dt)
    · simp only [hk, if_true] at hp
      rcases List.mem_map.mp hp with ⟨q, hq, rfl⟩
      by_cases hq1 : q.1 = dateKey tz it.dt
      · simp [hq1, pushSample]
      · simpa [hq1] using h q hq
    · simp only [hk, if_false, Bool.false_eq_true] at hp
      rcases List.mem_append.mp hp with hp | hp
      · exact h p hp
      · simp only [List.mem_singleton] at hp
        subst hp
        simp [initGroup]

/-- Claim C1: every daily summary emitted by processForecastData satisfies
tempMin ≤ tempAvg and tempAvg ≤ tempMax, where tempAvg is the arithmetic
mean of the temperatures of the group of samples for that day. -/
theorem tempAvg_between (tz : ℤ) (samples : List WeatherSample) :
    ∀ s ∈ processForecastData tz samples,
      s.tempMin ≤ s.tempAvg ∧ s.tempAvg ≤ s.tempMax := by
  intro s hs
  simp only [processForecastData] at hs
  have hs' := List.mem_of_mem_take hs
  rcases List.mem_map.mp hs' with ⟨p, hp, rfl⟩
  have hne : p.2.temps ≠ [] := temps_ne_nil_foldl tz samples [] (by simp) p hp
  exact jsMin_le_avg_le_jsMax p.2.temps hne

/-- A single concrete sample, used to instantiate the universally
quantified claims about the aggregation. -/
def sampleSolo : WeatherSample := ⟨0, 18, 50, 3, "Clear", "01d"⟩

/-- The summary the pipeline produces for the single sampleSolo input. -/
def summarySolo : DailySummary :=
  ⟨0, 18, 18, 18, some "Clear", 50, 3, some "01d"⟩

/-- Witness for C1: the invariant instantiated at the one-sample input. -/
theorem tempAvg_between_witness :
    summarySolo.tempMin ≤ summarySolo.tempAvg ∧
      summarySolo.tempAvg ≤ summarySolo.tempMax := by
  apply tempAvg_between 0 [sampleSolo] summarySolo
  simp [processForecastData, addToGroups, hasKey, dateKey, initGroup, summarize,
    jsMin, jsMax, jsRound, getMostFrequent, mfStep, sampleSolo, summarySolo]
  norm_num

/-- The eight-sample fixture of the specification: one calendar day of
three-hour samples on 2024-06-01. -/
def exampleSamples : List WeatherSample :=
  [⟨1717200000, 18, 50, 3, "Clear", "01d"⟩,
   ⟨1717210800, 20, 50, 3, "Clear", "01d"⟩,
   ⟨1717221600, 22, 50, 3, "Clouds", "03d"⟩,
   ⟨1717232400, 24, 50, 3, "Clear", "01d"⟩,
   ⟨1717243200, 23, 50, 3, "Rain", "10d"⟩,
   ⟨1717254000, 21, 50, 3, "Clear", "01d"⟩,
   ⟨1717264800, 19, 50, 3, "Clear", "01d"⟩,
   ⟨1717275600, 17, 50, 3, "Clear", "01d"⟩]

/-- Claim C8: on the fixture of eight samples sharing the calendar date
2024-06-01 with temperatures [18,20,22,24,23,21,19,17] and the given
conditions, the aggregation emits exactly one summary, with tempMin 17,
tempMax 24, tempAvg 20.5 and dominant condition Clear. -/
theorem processForecast_example :
    (processForecastData 0 exampleSamples).map
      (fun s => (s.tempMin, s.tempMax, s.tempAvg, s.condition)) =
      [(17, 24, 41 / 2, some "Clear")] := by
  simp [exampleSamples, processForecastData, addToGroups, hasKey, dateKey,
    initGroup, pushSample, summarize, jsMin, jsMax, getMostFrequent, mfStep,
    min_def, max_def]
  norm_num

lemma hasKey_iff (acc : List (ℤ × DayGroup)) (k : ℤ) :
    hasKey acc k = true ↔ k ∈ acc.map Prod.fst := by
  simp [hasKey, List.any_eq_true, List.mem_map]

lemma map_fst_update (acc : List (ℤ × DayGroup)) (k : ℤ)
    (f : DayGroup → DayGroup) :
    (acc.map (fun p => if p.1 = k then (p.1, f p.2) else p)).map Prod.fst =
      acc.map Prod.fst := by
  induction acc with
  | nil => rfl
  | cons q acc ih =>
    by_cases hq : q.1 = k
    · simp [hq, ih]
    · simp [hq, ih]

/-- The keys of the grouping object evolve exactly as a first-seen fold of
the date keys of the scanned samples. -/
lemma fold_keys (tz : ℤ) (l : List WeatherSample) :
    ∀ acc, (l.foldl (addToGroups tz) acc).map Prod.fst =
      (l.map (fun it => dateKey tz it.dt)).foldl
        (fun ks k => if k ∈ ks then ks else ks ++ [k]) (acc.map Prod.fst) := by
  induction l with
  | nil => intro acc; rfl
  | cons it l ih =>
    intro acc
    simp only [List.foldl_cons, List.map_cons]
    rw [ih]
    congr 1
    unfold addToGroups
    by_cases hk : hasKey acc (dateKey tz it.dt)
    · rw [if_pos hk, if_pos ((hasKey_iff acc _).mp hk)]
      exact map_fst_update acc _ (fun g => pushSample g it)
    · rw [if_neg hk, if_neg (fun hmem =>
        hk ((hasKey_iff acc _).mpr hmem))]
      simp

/-- The date stored in every group is a timestamp of that group's calendar
day: its date key is the group's key. -/
lemma fold_dates (tz : ℤ) (l : List WeatherSample) :
    ∀ acc, (∀ p ∈ acc, dateKey tz p.2.date = p.1) →
      ∀ p ∈ l.foldl (addToGroups tz) acc, dateKey tz p.2.date = p.1 := by
  induction l with
  | nil =>
    intro acc h
    simpa using h
  | cons it l ih =>
    intro acc h
    simp only [List.foldl_cons]
    apply ih
    intro p hp
    unfold addToGroups at hp
    by_cases hk : hasKey acc (dateKey tz it.dt)
    · simp only [hk, if_true] at hp
      rcases List.mem_map.mp hp with ⟨q, hq, rfl⟩
      by_cases hq1 : q.1 = dateKey tz it.dt
      · simpa [hq1, pushSample] using h q hq
      · simpa [hq1] using h q hq
    · simp only [hk, if_false, Bool.false_eq_true] at hp
      rcases List.mem_append.mp hp with hp | hp
      · exact h p hp
      · simp only [List.mem_singleton] at hp
        subst hp
        simp [initGroup]

/-- Whether a sample falls on the calendar day k. -/
def sameDay (tz : ℤ) (k : ℤ) (it : WeatherSample) : Bool :=
  decide (dateKey tz it.dt = k)

/-- The group that the scan assembles for the calendar day k: the samples of
that day in input order, field by field, dated by the first of them. -/
def groupOf (tz : ℤ) (k : ℤ) (l : List WeatherSample) : DayGroup :=
  ⟨((l.filter (sameDay tz k)).map (fun it => it.dt)).headD 0,
   (l.filter (sameDay tz k)).map (fun it => it.temp),
   (l.filter (sameDay tz k)).map (fun it => it.condition),
   (l.filter (sameDay tz k)).map (fun it => it.humidity),
   (l.filter (sameDay tz k)).map (fun it => it.windSpeed),
   (l.filter (sameDay tz k)).map (fun it => it.icon)⟩

lemma insertKey_mem (acc : List ℤ) (x k : ℤ) :
    x ∈ (if k ∈ acc then acc else acc ++ [k]) ↔ x ∈ acc ∨ x = k := by
  by_cases hk : k ∈ acc
  · simp only [if_pos hk]
    constructor
    · exact Or.inl
    · rintro (hx | rfl)
      · exact hx
      · exact hk
  · simp [if_neg hk]

lemma foldl_insertKey_mem (xs : List ℤ) : ∀ (acc : List ℤ) (x : ℤ),
    x ∈ xs.foldl (fun ks k => if k ∈ ks then ks else ks ++ [k]) acc ↔
      x ∈ acc ∨ x ∈ xs := by
  induction xs with
  | nil => simp
  | cons k xs ih =>
    intro acc x
    simp only [List.foldl_cons]
    rw [ih, insertKey_mem]
    simp only [List.mem_cons]
    tauto

lemma mem_firstSeen (xs : List ℤ) (x : ℤ) : x ∈ firstSeen xs ↔ x ∈ xs := by
  rw [firstSeen, foldl_insertKey_mem]
  simp

lemma firstSeen_append_singleton (xs : List ℤ) (k : ℤ) :
    firstSeen (xs ++ [k]) =
      if k ∈ firstSeen xs then firstSeen xs else firstSeen xs ++ [k] := by
  simp [firstSeen, List.foldl_append]

lemma filter_sameDay_ne_nil (tz : ℤ) (l : List WeatherSample) (k : ℤ)
    (h : k ∈ l.map (fun it => dateKey tz it.dt)) :
    l.filter (sameDay tz k) ≠ [] := by
  rcases List.mem_map.mp h with ⟨it, hit, hk⟩
  exact List.ne_nil_of_mem (List.mem_filter.mpr ⟨hit, by simp [sameDay, hk]⟩)

lemma filter_sameDay_eq_nil (tz : ℤ) (l : List WeatherSample) (k : ℤ)
    (h : k ∉ l.map (fun it => dateKey tz it.dt)) :
    l.filter (sameDay tz k) = [] := by
  rw [List.filter_eq_nil_iff]
  intro it hit
  simp only [sameDay, decide_eq_true_eq]
  intro hk
  exact h (List.mem_map.mpr ⟨it, hit, hk⟩)

lemma headD_append_of_ne_nil {α : Type} (A B : List α) (d : α) (h : A ≠ []) :
    (A ++ B).headD d = A.headD d := by
  cases A with
  | nil => exact absurd rfl h
  | cons a t => rfl

/-- Appending a sample of day k onto an input that already has samples of
day k pushes the sample onto the day k group. -/
lemma groupOf_append_same (tz : ℤ) (k : ℤ) (l : List WeatherSample)
    (it : WeatherSample) (hit : sameDay tz k it = true)
    (hne : l.filter (sameDay tz k) ≠ []) :
    groupOf tz k (l ++ [it]) = pushSample (groupOf tz k l) it := by
  unfold groupOf pushSample
  simp only [List.filter_append, List.filter_cons, hit, if_true,
    List.filter_nil, List.map_append, List.map_cons, List.map_nil]
  congr 1
  exact headD_append_of_ne_nil _ _ _ (fun hm => hne (List.map_eq_nil.mp hm))

/-- Appending a sample of another day leaves the day k group unchanged. -/
lemma groupOf_append_other (tz : ℤ) (k : ℤ) (l : List WeatherSample)
    (it : WeatherSample) (hit : sameDay tz k it = false) :
    groupOf tz k (l ++ [it]) = groupOf tz k l := by
  unfold groupOf
  simp [List.filter_append, List.filter_cons, hit]

/-- Appending the first sample of its day creates that day's group from the
one sample. -/
lemma groupOf_append_new (tz : ℤ) (l : List WeatherSample)
    (it : WeatherSample)
    (hnil : l.filter (sameDay tz (dateKey tz it.dt)) = []) :
    groupOf tz (dateKey tz it.dt) (l ++ [it]) = initGroup it := by
  have hit : sameDay tz (dateKey tz it.dt) it = true := by
    simp [sameDay]
  unfold groupOf initGroup
  simp [List.filter_append, List.filter_cons, hit, hnil]

/-- The grouping fold is exactly grouping by calendar date: after the scan,
the dailyData entries are, in first-seen key order, the per-day groups of
the samples of that day in input order. -/
lemma groups_characterization (tz : ℤ) (l : List WeatherSample) :
    l.foldl (addToGroups tz) [] =
      (firstSeen (l.map (fun it => dateKey tz it.dt))).map
        (fun k => (k, groupOf tz k l)) := by
  induction l using List.reverseRecOn with
  | nil => rfl
  | append_singleton l it ih =>
    rw [List.foldl_append, List.foldl_cons, List.foldl_nil, ih]
    have hmapapp : (l ++ [it]).map (fun s => dateKey tz s.dt) =
        l.map (fun s => dateKey tz s.dt) ++ [dateKey tz it.dt] := by
      simp
    by_cases hk : dateKey tz it.dt ∈ firstSeen (l.map (fun s => dateKey tz s.dt))
    · have hhas : hasKey ((firstSeen (l.map (fun s => dateKey tz s.dt))).map
          (fun k => (k, groupOf tz k l))) (dateKey tz it.dt) = true := by
        rw [hasKey_iff, List.map_map]
        simpa using hk
      simp only [addToGroups]
      rw [if_pos hhas, hmapapp, firstSeen_append_singleton, if_pos hk,
        List.map_map]
      apply List.map_congr_left
      intro k hkmem
      by_cases hkk : k = dateKey tz it.dt
      · have hitk : sameDay tz k it = true := by
          simp [sameDay, hkk]
        have hne := filter_sameDay_ne_nil tz l k
          (hkk ▸ (mem_firstSeen _ _).mp hk)
        simp only [Function.comp_apply, if_pos hkk, Prod.mk.injEq, true_and]
        rw [groupOf_append_same tz k l it hitk hne]
      · have hkk2 : ¬ dateKey tz it.dt = k := fun hh => hkk hh.symm
        have hitk : sameDay tz k it = false := by
          simp [sameDay, hkk2]
        simp only [Function.comp_apply, if_neg hkk, Prod.mk.injEq, true_and]
        rw [groupOf_append_other tz k l it hitk]
    · have hhas : hasKey ((firstSeen (l.map (fun s => dateKey tz s.dt))).map
          (fun k => (k, groupOf tz k l))) (dateKey tz it.dt) = false := by
        rw [Bool.eq_false_iff]
        intro habs
        rw [hasKey_iff, List.map_map] at habs
        exact hk (by simpa using habs)
      simp only [addToGroups]
      rw [if_neg (by simp [hhas]), hmapapp, firstSeen_append_singleton,
        if_neg hk, List.map_append]
      congr 1
      · apply List.map_congr_left
        intro k hkmem
        have hkk : k ≠ dateKey tz it.dt := by
          intro habs
          exact hk (habs ▸ hkmem)
        have hkk2 : ¬ dateKey tz it.dt = k := fun hh => hkk hh.symm
        have hitk : sameDay tz k it = false := by
          simp [sameDay, hkk2]
        rw [groupOf_append_other tz k l it hitk]
      · have hnil := filter_sameDay_eq_nil tz l (dateKey tz it.dt)
          (fun habs => hk ((mem_firstSeen _ _).mpr habs))
        simp only [List.map_cons, List.map_nil, List.cons.injEq, and_true,
          Prod.mk.injEq, true_and]
        rw [groupOf_append_new tz l it hnil]

/-- Claim C2: processForecastData groups the samples by local calendar date
— each emitted summary reduces exactly the samples of one distinct date, in
input order — and emits one summary per distinct date, in the order in which
the distinct dates are first encountered while scanning the input, truncated
to the first five groups; the empty input yields the empty result. -/
theorem processForecast_order (tz : ℤ) (samples : List WeatherSample) :
    processForecastData tz samples =
      ((firstSeen (samples.map (fun it => dateKey tz it.dt))).map
        (fun k => summarize (groupOf tz k samples))).take 5 ∧
    (processForecastData tz samples).map (fun s => dateKey tz s.date) =
      (firstSeen (samples.map (fun it => dateKey tz it.dt))).take 5 ∧
    processForecastData tz [] = [] := by
  refine ⟨?_, ?_, rfl⟩
  · rw [processForecastData, groups_characterization, List.map_map]
    rfl
  · simp only [processForecastData, ← List.map_take]
    rw [List.map_take, List.map_take, List.map_map]
    congr 1
    have hdates := fold_dates tz samples [] (by simp)
    calc (samples.foldl (addToGroups tz) []).map
          ((fun s => dateKey tz s.date) ∘ fun p => summarize p.2)
        = (samples.foldl (addToGroups tz) []).map Prod.fst := by
          apply List.map_congr_left
          intro p hp
          exact hdates p hp
      _ = firstSeen (samples.map (fun it => dateKey tz it.dt)) := by
          simpa [firstSeen] using fold_keys tz samples []

/-- Invariant of the getMostFrequent loop over the already scanned prefix:
the counts dictionary is exact, maxCount bounds every frequency, and maxItem
is an item that attained the running maximum strictly before any other item
did, witnessed by a prefix in which it alone reaches maxCount. -/
def MFInv (done : List String) (st : MFState) : Prop :=
  (∀ x, st.counts x = done.count x) ∧
  (∀ x, done.count x ≤ st.maxCount) ∧
  ∃ r i, st.maxItem = some r ∧ i ≤ done.length ∧
    (done.take i).count r = st.maxCount ∧ done.count r = st.maxCount ∧
    ∀ y, y ≠ r → (done.take i).count y < st.maxCount

lemma count_append_singleton (l : List String) (a x : String) :
    (l ++ [a]).count x = l.count x + if x = a then 1 else 0 := by
  by_cases hx : x = a
  · subst hx
    simp
  · simp [List.count_append, List.count_cons, hx]

lemma mfInv_step (done : List String) (st : MFState) (a : String)
    (h : MFInv done st) : MFInv (done ++ [a]) (mfStep st a) := by
  obtain ⟨hc, hmax, r, i, hitem, hi, htake, hcnt, hlt⟩ := h
  have hca : st.counts a = done.count a := hc a
  unfold mfStep
  by_cases hgt : st.counts a + 1 > st.maxCount
  · rw [if_pos hgt]
    refine ⟨?_, ?_, a, done.length + 1, rfl, by simp, ?_, ?_, ?_⟩
    · intro x
      rw [count_append_singleton]
      by_cases hx : x = a
      · subst hx
        simp [hca]
      · simp [hx, hc x]
    · intro x
      rw [count_append_singleton]
      by_cases hx : x = a
      · subst hx
        simp [hca]
      · have hx1 := hmax x
        simp only [if_neg hx]
        omega
    · rw [List.take_of_length_le (by simp), count_append_singleton]
      simp [hca]
    · rw [count_append_singleton]
      simp [hca]
    · intro y hy
      rw [List.take_of_length_le (by simp), count_append_singleton]
      have hy1 := hmax y
      simp only [if_neg hy]
      omega
  · rw [if_neg hgt]
    have hra : r ≠ a := by
      intro hra
      rw [hra] at hcnt
      omega
    refine ⟨?_, ?_, r, i, hitem, ?_, ?_, ?_, ?_⟩
    · intro x
      rw [count_append_singleton]
      by_cases hx : x = a
      · subst hx
        simp [hca]
      · simp [hx, hc x]
    · intro x
      rw [count_append_singleton]
      by_cases hx : x = a
      · subst hx
        simp
        omega
      · have hx1 := hmax x
        simp only [if_neg hx]
        omega
    · simp only [List.length_append, List.length_singleton]
      omega
    · rw [List.take_append_of_le_length hi]
      exact htake
    · rw [count_append_singleton, if_neg hra]
      simpa using hcnt
    · intro y hy
      rw [List.take_append_of_le_length hi]
      exact hlt y hy

lemma mfInv_foldl (l : List String) :
    ∀ done st, MFInv done st → MFInv (done ++ l) (l.foldl mfStep st) := by
  induction l with
  | nil =>
    intro done st h
    simpa using h
  | cons a l ih =>
    intro done st h
    simp only [List.foldl_cons]
    have := ih (done ++ [a]) (mfStep st a) (mfInv_step done st a h)
    simpa [List.append_assoc] using this

/-- Claim C3 counterexample: on the group with condition sequence
A, B, B, A both conditions occur twice, the first occurrence of A precedes
the first occurrence of B, yet getMostFrequent picks B, because B is the
first to reach the maximal count during the scan. -/
theorem mostFrequent_firstOccurrence_counterexample :
    getMostFrequent ["A", "B", "B", "A"] = some "B" ∧
    (["A", "B", "B", "A"] : List String).count "A" =
      (["A", "B", "B", "A"] : List String).count "B" ∧
    List.indexOf "A" ["A", "B", "B", "A"] <
      List.indexOf "B" ["A", "B", "B", "A"] := by
  decide

/-- Claim C3 (amended): for every nonempty group, getMostFrequent returns an
item of maximal frequency, and the tie is broken in favor of the item that
reaches the maximal count first during the left-to-right scan: some prefix of
the group already contains the winner with its full maximal count while every
other item still sits strictly below that count. -/
theorem getMostFrequent_spec (arr : List String) (h : arr ≠ []) :
    ∃ r, getMostFrequent arr = some r ∧
      (∀ y, arr.count y ≤ arr.count r) ∧
      ∃ i, i ≤ arr.length ∧ (arr.take i).count r = arr.count r ∧
        ∀ y, y ≠ r → (arr.take i).count y < arr.count r := by
  rcases arr with _ | ⟨a, rest⟩
  · exact absurd rfl h
  have hbase : MFInv [a] (mfStep ⟨fun _ => 0, 0, some a⟩ a) := by
    unfold mfStep
    rw [if_pos (by norm_num)]
    refine ⟨?_, ?_, a, 1, rfl, by simp, ?_, ?_, ?_⟩
    · intro x
      by_cases hx : x = a
      · subst hx
        simp
      · simp [List.count_cons, hx]
    · intro x
      by_cases hx : x = a
      · subst hx
        simp
      · simp [List.count_cons, hx]
    · simp
    · simp
    · intro y hy
      simp [List.count_cons, hy]
  have hinv := mfInv_foldl rest [a] _ hbase
  rw [List.singleton_append] at hinv
  obtain ⟨_, hmax, r, i, hitem, hi, htake, hcnt, hlt⟩ := hinv
  refine ⟨r, ?_, ?_, i, hi, ?_, ?_⟩
  · simpa [getMostFrequent] using hitem
  · intro y
    rw [hcnt]
    exact hmax y
  · rw [hcnt]
    exact htake
  · intro y hy
    rw [hcnt]
    exact hlt y hy

/-- Witness for the amended C3 on a concrete two-element group. -/
theorem getMostFrequent_spec_witness :
    ∃ r, getMostFrequent ["Clear", "Rain"] = some r ∧
      (∀ y, (["Clear", "Rain"] : List String).count y ≤
        (["Clear", "Rain"] : List String).count r) ∧
      ∃ i, i ≤ (["Clear", "Rain"] : List String).length ∧
        ((["Clear", "Rain"] : List String).take i).count r =
          (["Clear", "Rain"] : List String).count r ∧
        ∀ y, y ≠ r → ((["Clear", "Rain"] : List String).take i).count y <
          (["Clear", "Rain"] : List String).count r :=
  getMostFrequent_spec ["Clear", "Rain"] (by simp)

/-- A city id as minted by the template of coordinates and clock reading.
The template string is determined by and determines the triple, and the code
only ever compares ids for equality, so the id is embedded as the triple. -/
structure CityId where
  lat : ℚ
  lon : ℚ
  time : ℕ
  deriving DecidableEq

/-- A saved city record: the spread input fields plus the stamped id and
addedAt timestamp. -/
structure City where
  name : String
  lat : ℚ
  lon : ℚ
  id : CityId
  addedAt : ℕ
  deriving DecidableEq

/-- The city object handed to add by the search flow, before stamping. -/
structure CityInput where
  name : String
  lat : ℚ
  lon : ℚ
  deriving DecidableEq

/-- The state the composable manages: the reactive city list, the selection
list, and the list held by the persistent store.  The clock is passed
explicitly wherever the code reads it. -/
structure DashState where
  cities : List City
  selectedCities : List CityId
  storage : List City
  deriving DecidableEq

/-- The capacity constant maxCities of the composable. -/
def maxCities : ℕ := 6

/-- Stamping a city from its input fields at clock reading t. -/
def mkCity (c : CityInput) (t : ℕ) : City :=
  ⟨c.name, c.lat, c.lon, ⟨c.lat, c.lon, t⟩, t⟩

/-- addCity of the storage module: re-read the stored list, drop the insert
when the coordinates already occur, otherwise append the city re-stamped with
a second clock reading t. -/
def storageAddCity (stored : List City) (city : City) (t : ℕ) : List City :=
  if ∃ c ∈ stored, c.lat = city.lat ∧ c.lon = city.lon then stored
  else stored ++ [{ city with id := ⟨city.lat, city.lon, t⟩, addedAt := t }]

/-- addCity of the composable: reject at capacity, reject on a coordinate
match, otherwise stamp at clock reading t1, append in memory, and hand the
new city to the storage module, which stamps again at clock reading t2. -/
def addCityOp (st : DashState) (c : CityInput) (t1 t2 : ℕ) : Bool × DashState :=
  if ¬ st.cities.length < maxCities then (false, st)
  else if ∃ x ∈ st.cities, x.lat = c.lat ∧ x.lon = c.lon then (false, st)
  else
    (true, { st with cities := st.cities ++ [mkCity c t1],
                     storage := storageAddCity st.storage (mkCity c t1) t2 })

/-- removeCity of the composable: filter the city list by id, let the storage
module filter its list the same way, and filter the selection list. -/
def removeCityOp (st : DashState) (cityId : CityId) : DashState :=
  ⟨st.cities.filter (fun c => decide (c.id ≠ cityId)),
   st.selectedCities.filter (fun i => decide (i ≠ cityId)),
   st.storage.filter (fun c => decide (c.id ≠ cityId))⟩

/-- reorderCities of the composable: replace the list wholesale and persist
the same list. -/
def reorderCitiesOp (st : DashState) (newOrder : List City) : DashState :=
  ⟨newOrder, st.selectedCities, newOrder⟩

/-- splice(i, 0, a): insert at index i, clamped to the array length. -/
def spliceInsert (l : List (Option City)) (i : ℕ) (a : Option City) :
    List (Option City) :=
  l.take i ++ a :: l.drop i

/-- The array moveCity builds: splice out fromIndex (a no-op past the end),
destructure the removed slice (undefined when empty, modelled as none), and
splice that value back in at toIndex. -/
def jsMove (l : List City) (fromIndex toIndex : ℕ) : List (Option City) :=
  spliceInsert ((l.map some).eraseIdx fromIndex) toIndex (l.get? fromIndex)

/-- The state after moveCity's private result, which may hold an undefined
entry, is handed to reorderCities and persisted. -/
structure MovedState where
  cities : List (Option City)
  selectedCities : List CityId
  storage : List (Option City)
  deriving DecidableEq

/-- moveCity of the composable: build the spliced array and defer to
reorderCities, which installs and persists it. -/
def moveCityOp (st : DashState) (fromIndex toIndex : ℕ) : MovedState :=
  ⟨jsMove st.cities fromIndex toIndex, st.selectedCities,
   jsMove st.cities fromIndex toIndex⟩

/-- toggleCitySelection of the composable: indexOf then push or splice, so a
present id has its first occurrence removed and an absent id is appended. -/
def toggleCitySelection (selected : List CityId) (cityId : CityId) :
    List CityId :=
  if cityId ∈ selected then selected.erase cityId else selected ++ [cityId]

/-- reloadCities of the composable: discard the in-memory list and re-read
the persisted one. -/
def reloadCitiesOp (st : DashState) : DashState :=
  ⟨st.storage, st.selectedCities, st.storage⟩

def cityInputA : CityInput := ⟨"London", 51, -1⟩

def cityInputB : CityInput := ⟨"Paris", 2, 3⟩

def cityA : City := mkCity cityInputA 0

def stEmpty : DashState := ⟨[], [], []⟩

def stOne : DashState := ⟨[cityA], [], [cityA]⟩

def stFull : DashState :=
  ⟨[mkCity ⟨"C1", 1, 1⟩ 0, mkCity ⟨"C2", 2, 2⟩ 0, mkCity ⟨"C3", 3, 3⟩ 0,
    mkCity ⟨"C4", 4, 4⟩ 0, mkCity ⟨"C5", 5, 5⟩ 0, mkCity ⟨"C6", 6, 6⟩ 0], [],
   [mkCity ⟨"C1", 1, 1⟩ 0, mkCity ⟨"C2", 2, 2⟩ 0, mkCity ⟨"C3", 3, 3⟩ 0,
    mkCity ⟨"C4", 4, 4⟩ 0, mkCity ⟨"C5", 5, 5⟩ 0, mkCity ⟨"C6", 6, 6⟩ 0]⟩

def idA : CityId := ⟨1, 1, 1⟩

def idB : CityId := ⟨2, 2, 2⟩

def cityIdZ : CityId := ⟨0, 0, 99⟩

/-- Claim C4: add returns false and leaves the whole state untouched, with
no persistence write, when the collection is at the capacity of six or when
an existing city has exactly the new coordinates; otherwise it returns true
and appends the freshly stamped city at the end, and the stamped id is new
to the collection whenever the clock reading is fresh. -/
theorem addCity_spec (st : DashState) (c : CityInput) (t1 t2 : ℕ) :
    (¬ st.cities.length < maxCities → addCityOp st c t1 t2 = (false, st)) ∧
    ((∃ x ∈ st.cities, x.lat = c.lat ∧ x.lon = c.lon) →
      addCityOp st c t1 t2 = (false, st)) ∧
    (st.cities.length < maxCities →
      (¬ ∃ x ∈ st.cities, x.lat = c.lat ∧ x.lon = c.lon) →
      addCityOp st c t1 t2 =
        (true, { st with cities := st.cities ++ [mkCity c t1],
                         storage := storageAddCity st.storage (mkCity c t1) t2 })) ∧
    ((∀ x ∈ st.cities, x.id.time ≠ t1) →
      (mkCity c t1).id ∉ st.cities.map City.id) := by
  refine ⟨?_, ?_, ?_, ?_⟩
  · intro h
    rw [addCityOp, if_pos h]
  · intro h
    by_cases hcap : st.cities.length < maxCities
    · rw [addCityOp, if_neg (not_not_intro hcap), if_pos h]
    · rw [addCityOp, if_pos hcap]
  · intro h1 h2
    rw [addCityOp, if_neg (not_not_intro h1), if_neg h2]
  · intro h hmem
    rcases List.mem_map.mp hmem with ⟨x, hx, hid⟩
    exact h x hx (congrArg CityId.time hid)

/-- Witness for C4: an add into the empty collection succeeds, and an add
into a full six-city collection is rejected without mutation. -/
theorem addCity_spec_witness :
    (addCityOp stEmpty cityInputA 0 0).1 = true ∧
    addCityOp stFull cityInputA 0 0 = (false, stFull) := by
  constructor
  · rw [(addCity_spec stEmpty cityInputA 0 0).2.2.1 (by decide) (by decide)]
  · exact (addCity_spec stFull cityInputA 0 0).1 (by decide)

/-- Claim C5 counterexample: when the clock advances between the two stamps
taken during one add (composable stamp at 0, storage stamp at 1), the
persisted list differs from the in-memory list: the stored copy of the new
city carries a different id and addedAt. -/
theorem addCity_persistence_counterexample :
    ((addCityOp stEmpty cityInputA 0 1).2).storage ≠
      ((addCityOp stEmpty cityInputA 0 1).2).cities := by
  decide

/-- Claim C5 (amended): after remove, reorder and move the persisted list is
identical to the in-memory list (for remove assuming they agreed before the
operation; reorder and move persist the very list they install), and a
reload of an agreeing state is the identity; after add the agreement holds
provided the two clock readings taken during the add coincide. -/
theorem persistence_spec (st : DashState) (c : CityInput) (t1 t2 : ℕ)
    (cityId : CityId) (newOrder : List City) (i j : ℕ) :
    (st.storage = st.cities → t1 = t2 →
      ((addCityOp st c t1 t2).2).storage = ((addCityOp st c t1 t2).2).cities) ∧
    (st.storage = st.cities →
      (removeCityOp st cityId).storage = (removeCityOp st cityId).cities) ∧
    ((reorderCitiesOp st newOrder).storage = (reorderCitiesOp st newOrder).cities) ∧
    ((moveCityOp st i j).storage = (moveCityOp st i j).cities) ∧
    (st.storage = st.cities → reloadCitiesOp st = st) := by
  refine ⟨?_, ?_, rfl, rfl, ?_⟩
  · intro hag ht
    subst ht
    by_cases hcap : st.cities.length < maxCities
    · by_cases hdup : ∃ x ∈ st.cities, x.lat = c.lat ∧ x.lon = c.lon
      · rw [addCityOp, if_neg (not_not_intro hcap), if_pos hdup]
        exact hag
      · rw [addCityOp, if_neg (not_not_intro hcap), if_neg hdup]
        show storageAddCity st.storage (mkCity c t1) t1 = st.cities ++ [mkCity c t1]
        rw [storageAddCity, hag]
        simp only [mkCity]
        rw [if_neg hdup]
    · rw [addCityOp, if_pos hcap]
      exact hag
  · intro hag
    show st.storage.filter _ = st.cities.filter _
    rw [hag]
  · intro hag
    obtain ⟨cs, sel, sto⟩ := st
    have hag2 : sto = cs := hag
    subst hag2
    rfl

/-- Witness for the amended C5 on a one-city state: add with coinciding
clock readings and remove both leave storage and memory in agreement. -/
theorem persistence_spec_witness :
    ((addCityOp stOne cityInputB 5 5).2).storage =
      ((addCityOp stOne cityInputB 5 5).2).cities ∧
    (removeCityOp stOne cityA.id).storage = (removeCityOp stOne cityA.id).cities := by
  constructor
  · exact (persistence_spec stOne cityInputB 5 5 cityA.id [] 0 0).1 rfl rfl
  · exact (persistence_spec stOne cityInputB 5 5 cityA.id [] 0 0).2.1 rfl

/-- Claim C7: remove filters out exactly the cities whose id matches,
keeping all others in their relative order, removes the id from the
selection and nothing else, and is the identity on the city list when no
city carries the id. -/
theorem removeCity_spec (st : DashState) (cityId : CityId) :
    ((removeCityOp st cityId).cities.Sublist st.cities) ∧
    (∀ c, c ∈ (removeCityOp st cityId).cities ↔ c ∈ st.cities ∧ c.id ≠ cityId) ∧
    (cityId ∉ (removeCityOp st cityId).selectedCities) ∧
    (∀ j, j ≠ cityId →
      (j ∈ (removeCityOp st cityId).selectedCities ↔ j ∈ st.selectedCities)) ∧
    ((∀ c ∈ st.cities, c.id ≠ cityId) →
      (removeCityOp st cityId).cities = st.cities) := by
  refine ⟨?_, ?_, ?_, ?_, ?_⟩
  · exact List.filter_sublist _
  · intro c
    simp [removeCityOp, List.mem_filter]
  · simp [removeCityOp, List.mem_filter]
  · intro j hj
    simp [removeCityOp, List.mem_filter, hj]
  · intro h
    show st.cities.filter _ = st.cities
    rw [List.filter_eq_self]
    intro a ha
    simpa using h a ha

/-- Witness for C7: removing an id no saved city carries leaves the one-city
list untouched. -/
theorem removeCity_spec_witness :
    (removeCityOp stOne cityIdZ).cities = stOne.cities :=
  (removeCity_spec stOne cityIdZ).2.2.2.2 (by decide)

/-- Claim C9 counterexample: toggling an id twice does not restore the
selection array: a present id is re-appended at the end, and with a
duplicated id both copies are consumed, losing the id from the selection
altogether. -/
theorem toggleSelection_counterexample :
    toggleCitySelection (toggleCitySelection [idA, idB] idA) idA ≠ [idA, idB] ∧
    toggleCitySelection (toggleCitySelection [idA, idA] idA) idA = [] := by
  decide

/-- Claim C9 (amended): on a duplicate-free selection, toggling the same id
twice restores the selection as a set: the result is a permutation of the
original list (the exact list when the id was absent; a present id is
removed and then re-appended at the end). -/
theorem toggleSelection_twice_perm (sel : List CityId) (cityId : CityId)
    (h : sel.Nodup) :
    (toggleCitySelection (toggleCitySelection sel cityId) cityId).Perm sel := by
  by_cases hm : cityId ∈ sel
  · have hinner : toggleCitySelection sel cityId = sel.erase cityId := by
      rw [toggleCitySelection, if_pos hm]
    have hner : cityId ∉ sel.erase cityId := h.not_mem_erase
    rw [hinner, toggleCitySelection, if_neg hner]
    exact (List.perm_append_singleton _ _).trans (List.perm_cons_erase hm).symm
  · have hinner : toggleCitySelection sel cityId = sel ++ [cityId] := by
      rw [toggleCitySelection, if_neg hm]
    have hmem : cityId ∈ sel ++ [cityId] := by simp
    rw [hinner, toggleCitySelection, if_pos hmem, List.erase_append_right _ hm,
      List.erase_cons_head]
    simp

/-- Witness for the amended C9: toggling an absent id twice on a one-element
selection produces a permutation of the original selection. -/
theorem toggleSelection_twice_perm_witness :
    (toggleCitySelection (toggleCitySelection [idA] idB) idB).Perm [idA] :=
  toggleSelection_twice_perm [idA] idB (by decide)

/-- Claim C10 counterexample: with one saved city, moveCity 1 3 removes
nothing and splices undefined in at the clamped position 1, not at the
requested toIndex 3, which is out of range in the produced list. -/
theorem moveCity_position_counterexample :
    jsMove [cityA] 1 3 = [some cityA, none] ∧
    (jsMove [cityA] 1 3).get? 3 ≠ some none := by
  decide

lemma eraseIdx_of_le {α : Type} (l : List α) (i : ℕ) (h : l.length ≤ i) :
    l.eraseIdx i = l := by
  induction l generalizing i with
  | nil => cases i <;> rfl
  | cons a t ih =>
    cases i with
    | zero => simp at h
    | succ k =>
      simp only [List.eraseIdx_cons_succ, List.cons.injEq, true_and]
      exact ih k (by simpa using h)

/-- Claim C10 (amended): for every fromIndex past the end of the city list,
moveCity does not fail: it inserts an undefined entry at position
min(toIndex, n) — splice clamps the insertion index to the array length —
and installs and persists the resulting list of length n+1, which contains
a non-city element. -/
theorem moveCity_out_of_range (st : DashState) (i j : ℕ)
    (h : st.cities.length ≤ i) :
    (moveCityOp st i j).cities.length = st.cities.length + 1 ∧
    none ∈ (moveCityOp st i j).cities ∧
    (moveCityOp st i j).cities.get? (min j st.cities.length) = some none ∧
    (moveCityOp st i j).storage = (moveCityOp st i j).cities := by
  have hget : st.cities.get? i = none := List.get?_eq_none.mpr h
  have herase : (st.cities.map some).eraseIdx i = st.cities.map some :=
    eraseIdx_of_le _ _ (by simpa using h)
  have hcities : (moveCityOp st i j).cities =
      (st.cities.map some).take j ++ none :: (st.cities.map some).drop j := by
    show jsMove st.cities i j = _
    rw [jsMove, herase, hget, spliceInsert]
  have htlen : ((st.cities.map some).take j).length = min j st.cities.length := by
    simp
  refine ⟨?_, ?_, ?_, rfl⟩
  · rw [hcities]
    simp only [List.length_append, List.length_cons, List.length_take,
      List.length_drop, List.length_map]
    omega
  · rw [hcities]
    simp
  · rw [hcities, List.get?_append_right htlen.le, htlen]
    simp

/-- Witness for the amended C10: moving from index 1 of a one-city list. -/
theorem moveCity_out_of_range_witness :
    (moveCityOp stOne 1 3).cities.length = stOne.cities.length + 1 ∧
    none ∈ (moveCityOp stOne 1 3).cities ∧
    (moveCityOp stOne 1 3).cities.get? (min 3 stOne.cities.length) = some none ∧
    (moveCityOp stOne 1 3).storage = (moveCityOp stOne 1 3).cities :=
  moveCity_out_of_range stOne 1 3 (by decide)

end WeatherDashboard
